import Mathlib

/-!
Verification of the Russian-roulette game engine (`rustacean-roulette`).

The Rust sources are embedded shallowly:
* `RouletteConfig`, `Roulette`, `FireResult`, `GroupConfig` mirror the
  structures in `src/lib.rs`.
* Randomness is made explicit: the Bernoulli jam draw takes the uniform
  sample in `[0,1)` as a parameter (`random_bool`), `reload` takes the list
  of distinct chamber indices chosen by `rand::seq::index::sample`, and
  `random_range` takes the raw draw it reduces into the closed range.
* The Telegram coordinator (`handle_roulette` in `src/main.rs` and
  `commands/roulette.rs`) is embedded over an oracle of fire results, with
  an event trace recording the order of lock acquisition, firing,
  reloading, outgoing I/O and lock release.
-/

namespace RR

/-- Configuration for the Russian Roulette game (`RouletteConfig` in `src/lib.rs`).
`jam_probability` is an `f64` in Rust; it is modelled as a rational. -/
structure RouletteConfig where
  chambers : Nat
  bullets : Nat
  jam_probability : ℚ
  min_mute_time : Nat
  max_mute_time : Nat
  deriving Repr, DecidableEq

/-- A Russian Roulette game (`Roulette` in `src/lib.rs`). -/
structure Roulette where
  config : RouletteConfig
  contents : List Bool
  position : Nat
  deriving Repr, DecidableEq

/-- Result of firing the revolver (`FireResult` in `src/lib.rs`).
`NoBullets` is the spec's `Exhausted`. -/
inductive FireResult where
  | Empty
  | Bullet
  | Jammed
  | NoBullets
  deriving Repr, DecidableEq

/-- `rand`'s `random_bool(p)`: draw a uniform sample in `[0,1)` and return
whether it falls below `p`.  The sample is passed explicitly. -/
def random_bool (p : ℚ) (sample : ℚ) : Bool :=
  sample < p

/-- `Roulette::peek` (`src/lib.rs:177-185`): count of filled chambers at
index ≥ `position`, and count of left-over chambers. -/
def peek (r : Roulette) : Nat × Nat :=
  ((r.contents.drop r.position).count true, r.contents.length - r.position)

/-- `Roulette::fire` (`src/lib.rs:154-174`).  The uniform sample feeding the
jam draw is passed explicitly; the chamber read `self.contents[self.position]`
is modelled with a default that is never used on reachable states. -/
def fire (r : Roulette) (sample : ℚ) : FireResult × Roulette :=
  if (peek r).1 = 0 then
    (FireResult.NoBullets, r)
  else if random_bool r.config.jam_probability sample then
    (FireResult.Jammed, r)
  else
    let result := r.contents.getD r.position false
    let r' := { r with position := r.position + 1 }
    (if result then FireResult.Bullet else FireResult.Empty, r')

/-- `Roulette::reload` (`src/lib.rs:127-137`): reset the cursor, clear all
chambers, then set the chambers chosen by `sample(&mut rng, len, bullets)`.
The chosen distinct indices are passed explicitly as `selected`. -/
def reload (r : Roulette) (selected : List Nat) : Roulette :=
  { r with
    position := 0
    contents := selected.foldl (fun l i => l.set i true)
      (List.replicate r.contents.length false) }

/-- `RouletteConfig::start` (`src/lib.rs:47-79`): validate the config, then
build a revolver with all-false contents and reload it. -/
def start (c : RouletteConfig) (selected : List Nat) : Except String Roulette :=
  if c.chambers ≤ 0 then
    .error "Number of chambers must be greater than 0"
  else if c.bullets ≤ 0 then
    .error "Number of bullets must be greater than 0"
  else if c.chambers < c.bullets then
    .error "Number of bullets must be less than or equal to number of chambers"
  else if c.min_mute_time < 30 then
    .error "Minimum mute time must be greater than or equal to 30 seconds"
  else if 3600 < c.max_mute_time then
    .error "Maximum mute time must be less than or equal to 3600 seconds"
  else if c.max_mute_time < c.min_mute_time then
    .error "Minimum mute time must be less than or equal to maximum mute time"
  else
    .ok (reload { config := c, contents := List.replicate c.chambers false, position := 0 }
      selected)

/-- `rand`'s `random_range(lo..=hi)`: the raw draw is reduced into the closed
interval `[lo, hi]`. -/
def random_range (lo hi raw : Nat) : Nat :=
  lo + raw % (hi - lo + 1)

/-- `RouletteConfig::random_mute_until` (`src/lib.rs:87-99`): draw a duration
uniformly in `[min_mute_time, max_mute_time]` and return it with the absolute
expiry `now + duration`.  The raw draw and the current time are passed
explicitly. -/
def random_mute_until (c : RouletteConfig) (raw now : Nat) : Nat × Nat :=
  let duration := random_range c.min_mute_time c.max_mute_time raw
  (duration, now + duration)

/-- Iterated firing: fire `n` times, feeding the `i`-th uniform sample to the
`i`-th call, returning the list of results and the final state. -/
def fireIter (samples : Nat → ℚ) (r : Roulette) : Nat → List FireResult × Roulette
  | 0 => ([], r)
  | n + 1 =>
    let step := fire r (samples 0)
    let rest := fireIter (fun i => samples (i + 1)) step.2 n
    (step.1 :: rest.1, rest.2)

/-- Drop the trailing `false` entries of a chamber list: the chambers the
revolver will actually report before exhaustion. -/
def trimFalse : List Bool → List Bool
  | [] => []
  | a :: t =>
    match trimFalse t with
    | [] => if a then [true] else []
    | b :: t' => a :: b :: t'

/-- Render a chamber content as the corresponding fire result. -/
def toRes (b : Bool) : FireResult :=
  if b then FireResult.Bullet else FireResult.Empty

/-- Well-formedness of a revolver state: the cursor never passes the end of
the chamber list. -/
def WF (r : Roulette) : Prop :=
  r.position ≤ r.contents.length

/-- A small concrete config: 3 chambers, 1 bullet, no jamming. -/
def cfg3 : RouletteConfig :=
  { chambers := 3, bullets := 1, jam_probability := 0
    min_mute_time := 60, max_mute_time := 600 }

/-- A revolver over `cfg3` with empty chambers and cursor at 0. -/
def rev3 : Roulette :=
  { config := cfg3, contents := [false, false, false], position := 0 }

/-- A config that always jams: 2 chambers, 1 bullet, `jam_probability = 1`. -/
def cfgJam : RouletteConfig :=
  { chambers := 2, bullets := 1, jam_probability := 1
    min_mute_time := 60, max_mute_time := 600 }

/-- A revolver over `cfgJam` with empty chambers and cursor at 0. -/
def revJam : Roulette :=
  { config := cfgJam, contents := [false, false], position := 0 }

/-- The spec's config-validity predicate (§3, §4.1): all six constraints. -/
def validConfig (c : RouletteConfig) : Prop :=
  0 < c.chambers ∧ 0 < c.bullets ∧ c.bullets ≤ c.chambers ∧
    30 ≤ c.min_mute_time ∧ c.max_mute_time ≤ 3600 ∧
    c.min_mute_time ≤ c.max_mute_time

instance (c : RouletteConfig) : Decidable (validConfig c) := by
  unfold validConfig
  infer_instance

/-- A config with coinciding mute bounds: `min = max = 60`. -/
def cfg60 : RouletteConfig :=
  { chambers := 6, bullets := 2, jam_probability := 1
    min_mute_time := 60, max_mute_time := 60 }

/-- Per-group override configuration (`GroupConfig` in `src/lib.rs`). -/
structure GroupConfig where
  id : Int
  chambers : Option Nat
  bullets : Option Nat
  jam_probability : Option ℚ
  min_mute_time : Option Nat
  max_mute_time : Option Nat
  deriving Repr, DecidableEq

/-- `GroupConfig::resolve` (`src/lib.rs:220-243`): field-wise, the override
value when present, else the base config's value. -/
def GroupConfig.resolve (g : GroupConfig) (base : RouletteConfig) :
    RouletteConfig :=
  { chambers := g.chambers.getD base.chambers
    bullets := g.bullets.getD base.bullets
    jam_probability := g.jam_probability.getD base.jam_probability
    min_mute_time := g.min_mute_time.getD base.min_mute_time
    max_mute_time := g.max_mute_time.getD base.max_mute_time }

/-- The reply produced by one invocation of the roulette command handler:
`silent` is the `None` return (error paths), the others carry the literal
message of the corresponding branch. -/
inductive CoordReply where
  | silent
  | adminRefusal
  | stalled
  | shot (name : String)
  | safe (name : String)
  deriving Repr, DecidableEq

/-- The literal reply strings returned by `handle_roulette`
(`src/main.rs`) and `RouletteCommand::execute` (`src/commands/roulette.rs`). -/
def renderReply : CoordReply → Option String
  | .silent => none
  | .adminRefusal => some "Cannot play roulette as an admin"
  | .stalled => some "You're lucky that the gun got jammed."
  | .shot name => some (name ++ " is shot.")
  | .safe name => some (name ++ " is safe and sound.")

/-- Shallow embedding of the fire/reload core of `handle_roulette`
(`src/main.rs:229-253`) and `RouletteCommand::execute`
(`src/commands/roulette.rs:68-92`).  The coordinator in the repository
targets a revolver iteration whose `fire` returns `Option<bool>`
(`None` = exhausted); its successive results are supplied as the oracle
`fires`.  Returned alongside the reply: the number of `fire` calls made and
whether the revolver was reloaded. -/
def handle_roulette (fires : Nat → Option Bool) (restrictOk : Bool)
    (name : String) : CoordReply × Nat × Bool :=
  let finish := fun (result : Bool) =>
    if result then
      (if restrictOk then CoordReply.shot name else CoordReply.silent)
    else CoordReply.safe name
  match fires 0 with
  | some result => (finish result, 1, false)
  | none =>
    match fires 1 with
    | some result => (finish result, 2, true)
    | none => (CoordReply.stalled, 2, true)

/-- Observable events of one handler invocation, in program order. -/
inductive Ev where
  | acquire
  | fireCall
  | reloadCall
  | sendMessage
  | restrictMember
  | release
  deriving Repr, DecidableEq

/-- Event trace of `handle_roulette` (`src/main.rs:229-275`) after the
admin check: the room guard is acquired, the revolver fired; on exhaustion
the revolver is reloaded in place, the reload notice is sent and the
revolver fired once more; a live result applies the member restriction.
The Rust `MutexGuard` is dropped only when the handler returns, so the
release event closes every branch. -/
def handle_roulette_trace (fires : Nat → Option Bool) : List Ev :=
  Ev.acquire :: Ev.fireCall ::
    (match fires 0 with
     | some result =>
        (if result then [Ev.restrictMember] else []) ++ [Ev.release]
     | none =>
        Ev.reloadCall :: Ev.sendMessage :: Ev.fireCall ::
          (match fires 1 with
           | some result =>
              (if result then [Ev.restrictMember] else []) ++ [Ev.release]
           | none => [Ev.release]))

/-! ### Counting lemmas for `reload` -/

lemma count_true_set (l : List Bool) (a : Nat) (ha : l[a]? = some false) :
    (l.set a true).count true = l.count true + 1 := by
  induction l generalizing a with
  | nil => simp at ha
  | cons x t ih =>
    cases a with
    | zero =>
      simp only [List.getElem?_cons_zero, Option.some.injEq] at ha
      subst ha
      simp [List.count_cons]
    | succ n =>
      simp only [List.getElem?_cons_succ] at ha
      simp only [List.set_cons_succ, List.count_cons, ih n ha]
      omega

lemma length_foldl_set (sel : List Nat) (l : List Bool) :
    (sel.foldl (fun l i => l.set i true) l).length = l.length := by
  induction sel generalizing l with
  | nil => rfl
  | cons a t ih => simp [List.foldl_cons, ih, List.length_set]

lemma count_foldl_set (sel : List Nat) (l : List Bool)
    (hnd : sel.Nodup) (hf : ∀ i ∈ sel, l[i]? = some false) :
    (sel.foldl (fun l i => l.set i true) l).count true = l.count true + sel.length := by
  induction sel generalizing l with
  | nil => rfl
  | cons a t ih =>
    simp only [List.foldl_cons]
    have ha : l[a]? = some false := hf a (List.mem_cons_self a t)
    have hnd' : t.Nodup := hnd.of_cons
    have hne : ∀ i ∈ t, a ≠ i := fun i hi => by
      rintro rfl
      exact (List.nodup_cons.mp hnd).1 hi
    have hf' : ∀ i ∈ t, (l.set a true)[i]? = some false := fun i hi => by
      rw [List.getElem?_set_ne (hne i hi)]
      exact hf i (List.mem_cons_of_mem a hi)
    rw [ih (l.set a true) hnd' hf', count_true_set l a ha, List.length_cons]
    omega

lemma count_false_add_count_true (l : List Bool) :
    l.count false + l.count true = l.length := by
  induction l with
  | nil => rfl
  | cons x t ih => cases x <;> simp [List.count_cons] <;> omega

lemma replicate_false_getElem? {n i : Nat} (h : i < n) :
    (List.replicate n false)[i]? = some false := by
  rw [List.getElem?_replicate]
  simp [h]

lemma reload_contents_length (r : Roulette) (sel : List Nat) :
    (reload r sel).contents.length = r.contents.length := by
  simp [reload, length_foldl_set]

lemma reload_count_true (r : Roulette) (sel : List Nat)
    (hnd : sel.Nodup) (hb : ∀ i ∈ sel, i < r.contents.length) :
    (reload r sel).contents.count true = sel.length := by
  have hf : ∀ i ∈ sel, (List.replicate r.contents.length false)[i]? = some false :=
    fun i hi => replicate_false_getElem? (hb i hi)
  simp [reload, count_foldl_set sel _ hnd hf, List.count_replicate]

/-- C2: for every validated config with `chambers = N`, `bullets = K`
(`0 < K ≤ N`), immediately after `reload` the contents have exactly `K` true
entries and `N - K` false entries, and the cursor is at 0.  The list of
distinct in-range indices chosen by `rand`'s `sample` is passed explicitly. -/
theorem reload_fairness (r : Roulette) (sel : List Nat)
    (hnd : sel.Nodup) (hb : ∀ i ∈ sel, i < r.contents.length)
    (hlen : sel.length = r.config.bullets)
    (hch : r.contents.length = r.config.chambers)
    (_hK : 0 < r.config.bullets) (_hKN : r.config.bullets ≤ r.config.chambers) :
    (reload r sel).contents.count true = r.config.bullets ∧
      (reload r sel).contents.count false = r.config.chambers - r.config.bullets ∧
      (reload r sel).position = 0 := by
  have hct : (reload r sel).contents.count true = r.config.bullets := by
    rw [reload_count_true r sel hnd hb, hlen]
  refine ⟨hct, ?_, rfl⟩
  have hsum := count_false_add_count_true (reload r sel).contents
  rw [hct, reload_contents_length, hch] at hsum
  omega

/-- Closed instance of C2: reloading a 3-chamber, 1-bullet revolver with
chosen index 1 yields one loaded and two empty chambers with cursor 0. -/
theorem reload_fairness_witness :
    (reload rev3 [1]).contents.count true = rev3.config.bullets ∧
      (reload rev3 [1]).contents.count false
        = rev3.config.chambers - rev3.config.bullets ∧
      (reload rev3 [1]).position = 0 :=
  reload_fairness rev3 [1] (by decide) (by decide) (by decide) (by decide)
    (by decide) (by decide)

/-- C3: when no loaded chamber remains at or past the cursor
(`peek().filled = 0`), `fire` returns `NoBullets` (the spec's `Exhausted`)
and the state — cursor and contents — is completely unchanged. -/
theorem fire_exhausted_frame (r : Roulette) (s : ℚ) (h : (peek r).1 = 0) :
    fire r s = (FireResult.NoBullets, r) := by
  simp [fire, h]

/-- Closed instance of C3: firing the all-empty 3-chamber revolver returns
`NoBullets` and leaves the state untouched. -/
theorem fire_exhausted_frame_witness :
    (peek rev3).1 = 0 ∧ fire rev3 0 = (FireResult.NoBullets, rev3) :=
  ⟨by decide, fire_exhausted_frame rev3 0 (by decide)⟩

/-! ### Structure of the fire sequence under `jam_probability = 0` -/

lemma count_true_trimFalse (l : List Bool) :
    (trimFalse l).count true = l.count true := by
  induction l with
  | nil => rfl
  | cons a t ih =>
    rw [trimFalse]
    cases h : trimFalse t with
    | nil =>
      rw [h] at ih
      cases a <;> simp_all [List.count_cons]
    | cons b t' =>
      rw [h] at ih
      simp [List.count_cons, ih]

lemma trimFalse_length_le (l : List Bool) : (trimFalse l).length ≤ l.length := by
  induction l with
  | nil => exact Nat.le_refl 0
  | cons a t ih =>
    rw [trimFalse]
    cases h : trimFalse t with
    | nil => cases a <;> simp
    | cons b t' =>
      rw [h] at ih
      simpa using Nat.succ_le_succ ih

lemma trimFalse_eq_nil (l : List Bool) (h : l.count true = 0) : trimFalse l = [] := by
  induction l with
  | nil => rfl
  | cons a t ih =>
    simp only [List.count_cons] at h
    have ha : a = false := by
      cases a
      · rfl
      · simp at h
    have ht : t.count true = 0 := by
      cases a <;> simp_all
    rw [trimFalse, ih ht, ha]
    simp

lemma trimFalse_cons_pos (a : Bool) (t : List Bool)
    (h : 0 < (a :: t).count true) : trimFalse (a :: t) = a :: trimFalse t := by
  rw [trimFalse]
  cases ht : trimFalse t with
  | nil =>
    have htc : t.count true = 0 := by
      have := count_true_trimFalse t
      rw [ht] at this
      simpa using this.symm
    have ha : a = true := by
      simp only [List.count_cons, htc] at h
      cases a
      · simp at h
      · rfl
    rw [ha]
    rfl
  | cons b t' => rfl

lemma random_bool_zero (s : ℚ) (hs : 0 ≤ s) : random_bool 0 s = false := by
  simp only [random_bool, decide_eq_false_iff_not, not_lt]
  exact hs

lemma fire_of_peek_zero (r : Roulette) (s : ℚ) (h : (peek r).1 = 0) :
    fire r s = (FireResult.NoBullets, r) := by
  simp [fire, h]

lemma peek_pos_lt (r : Roulette) (h : (peek r).1 ≠ 0) :
    r.position < r.contents.length := by
  by_contra hc
  push_neg at hc
  have hd : r.contents.drop r.position = [] := List.drop_eq_nil_of_le hc
  simp [peek, hd] at h

lemma fire_step (r : Roulette) (s : ℚ) (hj : r.config.jam_probability = 0)
    (hs : 0 ≤ s) (h : (peek r).1 ≠ 0) :
    fire r s = (toRes (r.contents.getD r.position false),
      { r with position := r.position + 1 }) := by
  have hrb : random_bool r.config.jam_probability s = false := by
    rw [hj]
    exact random_bool_zero s hs
  simp [fire, h, hrb, toRes]

lemma fireIter_exhausted (m : Nat) (samples : Nat → ℚ) (r : Roulette)
    (h : (peek r).1 = 0) :
    fireIter samples r m = (List.replicate m FireResult.NoBullets, r) := by
  induction m generalizing samples with
  | zero => rfl
  | succ n ih =>
    simp [fireIter, fire_of_peek_zero r (samples 0) h, ih, List.replicate_succ]

lemma fireIter_spec (n : Nat) (samples : Nat → ℚ) (r : Roulette)
    (hs : ∀ i, 0 ≤ samples i) (hj : r.config.jam_probability = 0)
    (hn : (trimFalse (r.contents.drop r.position)).length ≤ n) :
    (fireIter samples r n).1
      = (trimFalse (r.contents.drop r.position)).map toRes
        ++ List.replicate (n - (trimFalse (r.contents.drop r.position)).length)
            FireResult.NoBullets := by
  induction n generalizing samples r with
  | zero =>
    have : trimFalse (r.contents.drop r.position) = [] := by
      have := Nat.le_zero.mp hn
      exact List.length_eq_zero.mp this
    simp [fireIter, this]
  | succ n ih =>
    by_cases h : (peek r).1 = 0
    · have htz : (r.contents.drop r.position).count true = 0 := by
        simpa [peek] using h
      have htn : trimFalse (r.contents.drop r.position) = [] := trimFalse_eq_nil _ htz
      rw [fireIter_exhausted (n + 1) samples r h, htn]
      simp
    · have hlt : r.position < r.contents.length := peek_pos_lt r h
      have hdrop : r.contents.drop r.position
          = r.contents[r.position] :: r.contents.drop (r.position + 1) :=
        List.drop_eq_getElem_cons hlt
      have hcnt : 0 < (r.contents.drop r.position).count true := by
        have : (peek r).1 ≠ 0 := h
        simp only [peek] at this
        omega
      have htrim : trimFalse (r.contents.drop r.position)
          = r.contents[r.position] :: trimFalse (r.contents.drop (r.position + 1)) := by
        rw [hdrop] at hcnt ⊢
        exact trimFalse_cons_pos _ _ hcnt
      have hgd : r.contents.getD r.position false = r.contents[r.position] :=
        List.getD_eq_getElem r.contents false hlt
      have hfire := fire_step r (samples 0) hj (hs 0) h
      have hn' : (trimFalse (r.contents.drop (r.position + 1))).length ≤ n := by
        rw [htrim] at hn
        simpa using Nat.lt_succ_iff.mp (Nat.lt_of_lt_of_le (Nat.lt_succ_self _) hn)
      have ihr := ih (fun i => samples (i + 1)) { r with position := r.position + 1 }
        (fun i => hs (i + 1)) hj hn'
      have hlen1 : (trimFalse (r.contents.drop r.position)).length
          = (trimFalse (r.contents.drop (r.position + 1))).length + 1 := by
        rw [htrim]
        rfl
      simp only [fireIter, hfire, ihr, htrim, hgd]
      simp only [List.map_cons, List.length_cons, List.cons_append, Nat.succ_sub_succ]

lemma count_bullet_map_toRes (l : List Bool) :
    (l.map toRes).count FireResult.Bullet = l.count true := by
  induction l with
  | nil => rfl
  | cons a t ih => cases a <;> simp [toRes, List.count_cons, ih]

/-- C1 as stated is false on the code: from the validated config
`(chambers = 3, bullets = 1, jam_probability = 0)` and the reload that loads
chamber index 1, the three `fire` calls yield `[Empty, Bullet, NoBullets]` —
only one `Empty` result instead of the claimed `3 - 1 = 2`; the revolver
reports `NoBullets` (`Exhausted`) as soon as no loaded chamber remains past
the cursor, before all `N` chambers have been consumed. -/
theorem sequential_exhaustion_counterexample :
    start cfg3 [1] = .ok (reload rev3 [1])
    ∧ (fireIter (fun _ => 0) (reload rev3 [1]) 3).1
      = [FireResult.Empty, FireResult.Bullet, FireResult.NoBullets]
    ∧ (fireIter (fun _ => 0) (reload rev3 [1]) 3).1.count FireResult.Empty ≠ 3 - 1 := by
  refine ⟨rfl, by decide, by decide⟩

/-- C1 (amended): with `jam_probability = 0`, a freshly reloaded revolver
reports its chambers strictly in loading order, but only up to and including
the last loaded chamber: over `chambers` fire calls it yields the per-chamber
results for that prefix — exactly `bullets` `Bullet` results among them —
followed by `NoBullets` (`Exhausted`) for every remaining call, and the
`chambers + 1`-th call again yields `NoBullets`. -/
theorem sequential_exhaustion (r : Roulette) (sel : List Nat) (samples : Nat → ℚ)
    (hs : ∀ i, 0 ≤ samples i) (hj : r.config.jam_probability = 0)
    (hnd : sel.Nodup) (hb : ∀ i ∈ sel, i < r.contents.length)
    (hlen : sel.length = r.config.bullets)
    (hch : r.contents.length = r.config.chambers) :
    (fireIter samples (reload r sel) r.config.chambers).1
      = (trimFalse (reload r sel).contents).map toRes
        ++ List.replicate
            (r.config.chambers - (trimFalse (reload r sel).contents).length)
            FireResult.NoBullets
    ∧ (fireIter samples (reload r sel) r.config.chambers).1.count FireResult.Bullet
      = r.config.bullets
    ∧ (fireIter samples (reload r sel) (r.config.chambers + 1)).1
      = (fireIter samples (reload r sel) r.config.chambers).1
        ++ [FireResult.NoBullets] := by
  have hclen : (reload r sel).contents.length = r.config.chambers := by
    rw [reload_contents_length, hch]
  have hL : (trimFalse (reload r sel).contents).length ≤ r.config.chambers := by
    calc (trimFalse (reload r sel).contents).length
        ≤ (reload r sel).contents.length := trimFalse_length_le _
      _ = r.config.chambers := hclen
  have h1 := fireIter_spec r.config.chambers samples (reload r sel) hs hj hL
  have h2 := fireIter_spec (r.config.chambers + 1) samples (reload r sel) hs hj
    (Nat.le_succ_of_le hL)
  have hdrop : (reload r sel).contents.drop (reload r sel).position
      = (reload r sel).contents := by
    rw [show (reload r sel).position = 0 from rfl, List.drop_zero]
  rw [hdrop] at h1 h2
  have hcount : (reload r sel).contents.count true = r.config.bullets := by
    rw [reload_count_true r sel hnd hb, hlen]
  refine ⟨h1, ?_, ?_⟩
  · rw [h1]
    simp [List.count_append, List.count_replicate, count_bullet_map_toRes,
      count_true_trimFalse, hcount]
  · rw [h1, h2]
    have harith : r.config.chambers + 1 - (trimFalse (reload r sel).contents).length
        = (r.config.chambers - (trimFalse (reload r sel).contents).length) + 1 := by
      omega
    rw [harith, List.replicate_succ', List.append_assoc]

/-- Closed instance of the amended C1, at the 3-chamber, 1-bullet config with
chamber 1 loaded: the Bullet count over 3 calls is exactly 1. -/
theorem sequential_exhaustion_witness :
    (fireIter (fun _ => 0) (reload rev3 [1]) rev3.config.chambers).1.count
      FireResult.Bullet = rev3.config.bullets :=
  (sequential_exhaustion rev3 [1] (fun _ => 0) (fun _ => le_rfl) rfl
    (by decide) (by decide) (by decide) (by decide)).2.1

/-! ### Jamming -/

lemma fire_jam_one (r : Roulette) (s : ℚ) (hj : r.config.jam_probability = 1)
    (hs : s < 1) (h : (peek r).1 ≠ 0) : fire r s = (FireResult.Jammed, r) := by
  have hrb : random_bool r.config.jam_probability s = true := by
    simp only [random_bool, hj, decide_eq_true_eq]
    exact hs
  simp [fire, h, hrb]

lemma fireIter_jam_one (n : Nat) (samples : Nat → ℚ) (r : Roulette)
    (hj : r.config.jam_probability = 1) (hs : ∀ i, samples i < 1)
    (h : (peek r).1 ≠ 0) :
    fireIter samples r n = (List.replicate n FireResult.Jammed, r) := by
  induction n generalizing samples with
  | zero => rfl
  | succ m ih =>
    simp [fireIter, fire_jam_one r (samples 0) hj (hs 0) h,
      ih (fun i => samples (i + 1)) (fun i => hs (i + 1)), List.replicate_succ]

lemma peek_reload (r : Roulette) (sel : List Nat)
    (hnd : sel.Nodup) (hb : ∀ i ∈ sel, i < r.contents.length) :
    (peek (reload r sel)).1 = sel.length := by
  have hdrop : (reload r sel).contents.drop (reload r sel).position
      = (reload r sel).contents := by
    rw [show (reload r sel).position = 0 from rfl, List.drop_zero]
  simp only [peek, hdrop]
  exact reload_count_true r sel hnd hb

lemma fire_jam_frame (r : Roulette) (s : ℚ)
    (h : (fire r s).1 = FireResult.Jammed) : (fire r s).2 = r := by
  by_cases h0 : (peek r).1 = 0
  · rw [fire_of_peek_zero r s h0]
  · cases hjb : random_bool r.config.jam_probability s with
    | true => simp [fire, h0, hjb]
    | false =>
      exfalso
      simp only [fire, h0, if_neg h0, hjb, Bool.false_eq_true, if_false] at h
      split at h <;> simp_all

/-- C4: a jammed fire attempt leaves the cursor and the contents unchanged;
and with `jam_probability = 1`, from a freshly reloaded revolver with at
least one bullet, every fire call returns `Jammed` (the uniform samples lie
in `[0,1)`), the state never changes, and `peek` reports the same pair
across any number of calls. -/
theorem jam_non_consumption :
    (∀ (r : Roulette) (s : ℚ), (fire r s).1 = FireResult.Jammed →
      (fire r s).2 = r)
    ∧ ∀ (r : Roulette) (sel : List Nat) (samples : Nat → ℚ) (n : Nat),
        r.config.jam_probability = 1 → (∀ i, samples i < 1) →
        sel.Nodup → (∀ i ∈ sel, i < r.contents.length) → sel ≠ [] →
        fireIter samples (reload r sel) n
            = (List.replicate n FireResult.Jammed, reload r sel)
          ∧ peek (fireIter samples (reload r sel) n).2 = peek (reload r sel) := by
  refine ⟨fire_jam_frame, ?_⟩
  intro r sel samples n hj hs hnd hb hne
  have hpk : (peek (reload r sel)).1 ≠ 0 := by
    rw [peek_reload r sel hnd hb]
    simpa using hne
  have hit := fireIter_jam_one n samples (reload r sel) hj hs hpk
  exact ⟨hit, by rw [hit]⟩

/-- Closed instance of C4: with the always-jamming 2-chamber config and
chamber 0 loaded, a single fire leaves the state unchanged, and five fire
calls all return `Jammed` with the state and `peek` untouched. -/
theorem jam_non_consumption_witness :
    (fire (reload revJam [0]) 0).2 = reload revJam [0]
    ∧ (fireIter (fun _ => 0) (reload revJam [0]) 5
          = (List.replicate 5 FireResult.Jammed, reload revJam [0])
        ∧ peek (fireIter (fun _ => 0) (reload revJam [0]) 5).2
          = peek (reload revJam [0])) :=
  ⟨jam_non_consumption.1 (reload revJam [0]) 0 (by decide),
    jam_non_consumption.2 revJam [0] (fun _ => 0) 5 rfl
      (fun _ => by norm_num) (by decide) (by decide) (by decide)⟩

/-! ### Config validation -/

/-- C6: `start` checks, in order, `chambers > 0`, `bullets > 0`,
`bullets ≤ chambers`, `min_mute_time ≥ 30`, `max_mute_time ≤ 3600`,
`min_mute_time ≤ max_mute_time`; any violating config fails with the error
naming the first violated constraint in that order, and a revolver is
produced exactly when all six constraints hold. -/
theorem config_validation (c : RouletteConfig) (sel : List Nat) :
    ((∃ r, start c sel = .ok r) ↔ validConfig c)
    ∧ (c.chambers = 0 →
        start c sel = .error "Number of chambers must be greater than 0")
    ∧ (0 < c.chambers → c.bullets = 0 →
        start c sel = .error "Number of bullets must be greater than 0")
    ∧ (0 < c.chambers → 0 < c.bullets → c.chambers < c.bullets →
        start c sel = .error
          "Number of bullets must be less than or equal to number of chambers")
    ∧ (0 < c.chambers → 0 < c.bullets → c.bullets ≤ c.chambers →
        c.min_mute_time < 30 →
        start c sel = .error
          "Minimum mute time must be greater than or equal to 30 seconds")
    ∧ (0 < c.chambers → 0 < c.bullets → c.bullets ≤ c.chambers →
        30 ≤ c.min_mute_time → 3600 < c.max_mute_time →
        start c sel = .error
          "Maximum mute time must be less than or equal to 3600 seconds")
    ∧ (0 < c.chambers → 0 < c.bullets → c.bullets ≤ c.chambers →
        30 ≤ c.min_mute_time → c.max_mute_time ≤ 3600 →
        c.max_mute_time < c.min_mute_time →
        start c sel = .error
          "Minimum mute time must be less than or equal to maximum mute time") := by
  unfold start validConfig
  refine ⟨?_, ?_, ?_, ?_, ?_, ?_, ?_⟩ <;>
    (split_ifs <;> intros <;> simp_all <;> omega)

/-- Closed instance of C6: the 3-chamber config validates and starts, while
setting its bullet count to 0 fails with the bullets error. -/
theorem config_validation_witness :
    (∃ r, start cfg3 [1] = .ok r)
    ∧ start { cfg3 with bullets := 0 } [1]
        = .error "Number of bullets must be greater than 0" :=
  ⟨(config_validation cfg3 [1]).1.mpr (by decide),
    (config_validation { cfg3 with bullets := 0 } [1]).2.2.1 (by decide) (by decide)⟩

/-! ### Coordinator protocol -/

/-- C5: when the first fire yields exhausted (`none`), the coordinator
reloads and fires exactly once more — two fire calls in total, with the
reload flag set, and its behaviour depends on no fire result beyond the
first two (never looping) — and if the second call is also exhausted it
returns the distinct stalled reply, an actual message rather than the
silent error path or the shot/safe outcomes. -/
theorem reload_once_then_stall (fires : Nat → Option Bool) (restrictOk : Bool)
    (name : String) (h : fires 0 = none) :
    (handle_roulette fires restrictOk name).2.1 = 2
    ∧ (handle_roulette fires restrictOk name).2.2 = true
    ∧ (fires 1 = none →
        (handle_roulette fires restrictOk name).1 = CoordReply.stalled
        ∧ renderReply (handle_roulette fires restrictOk name).1 ≠ none
        ∧ (∀ n, CoordReply.stalled ≠ CoordReply.shot n)
        ∧ (∀ n, CoordReply.stalled ≠ CoordReply.safe n))
    ∧ ∀ fires' : Nat → Option Bool, fires' 0 = fires 0 → fires' 1 = fires 1 →
        handle_roulette fires' restrictOk name
          = handle_roulette fires restrictOk name := by
  refine ⟨?_, ?_, ?_, ?_⟩
  · unfold handle_roulette
    rw [h]
    cases h1 : fires 1 <;> rfl
  · unfold handle_roulette
    rw [h]
    cases h1 : fires 1 <;> rfl
  · intro h1
    unfold handle_roulette
    rw [h, h1]
    exact ⟨rfl, by simp [renderReply], fun n => by simp, fun n => by simp⟩
  · intro fires' h0' h1'
    unfold handle_roulette
    rw [h0', h1']

/-- Closed instance of C5: with both fire results exhausted, the handler
makes two fire calls, reloads, and replies with the stalled message. -/
theorem reload_once_then_stall_witness :
    (handle_roulette (fun _ => none) true "u").2.1 = 2
    ∧ (handle_roulette (fun _ => none) true "u").1 = CoordReply.stalled :=
  ⟨(reload_once_then_stall (fun _ => none) true "u" rfl).1,
    ((reload_once_then_stall (fun _ => none) true "u" rfl).2.2.1 rfl).1⟩

/-- C7 fails on the code: the handler performs its outgoing I/O while the
room guard is still held.  On an exhausted first fire the trace sends the
reload notice strictly before the guard release, and on a live first fire
it applies the restriction strictly before the guard release; no branch
releases the guard before its I/O. -/
theorem lock_held_across_io :
    handle_roulette_trace (fun _ => none)
      = [Ev.acquire, Ev.fireCall, Ev.reloadCall, Ev.sendMessage,
          Ev.fireCall, Ev.release]
    ∧ Ev.sendMessage ∈ (handle_roulette_trace (fun _ => none)).dropLast
    ∧ handle_roulette_trace (fun _ => some true)
      = [Ev.acquire, Ev.fireCall, Ev.restrictMember, Ev.release]
    ∧ Ev.restrictMember ∈ (handle_roulette_trace (fun _ => some true)).dropLast := by
  refine ⟨rfl, by decide, rfl, by decide⟩

/-! ### Config resolution -/

/-- C8: `resolve` takes, field by field, the override's value when present
and the base config's value otherwise; an override specifying only
`bullets` changes nothing but `bullets`. -/
theorem resolve_fields (g : GroupConfig) (d : RouletteConfig) (b : Nat)
    (i : Int) :
    (g.resolve d).chambers = g.chambers.getD d.chambers
    ∧ (g.resolve d).bullets = g.bullets.getD d.bullets
    ∧ (g.resolve d).jam_probability = g.jam_probability.getD d.jam_probability
    ∧ (g.resolve d).min_mute_time = g.min_mute_time.getD d.min_mute_time
    ∧ (g.resolve d).max_mute_time = g.max_mute_time.getD d.max_mute_time
    ∧ GroupConfig.resolve ⟨i, none, some b, none, none, none⟩ d
      = { d with bullets := b } := by
  refine ⟨rfl, rfl, rfl, rfl, rfl, ?_⟩
  cases d
  rfl

/-! ### Mute duration -/

/-- C9: the drawn mute duration always lies in the closed interval
`[min_mute_time, max_mute_time]`, collapses to the single value when the
bounds coincide, and the returned absolute expiry equals `now + duration`. -/
theorem mute_bounds (c : RouletteConfig) (raw now : Nat)
    (h : c.min_mute_time ≤ c.max_mute_time) :
    c.min_mute_time ≤ (random_mute_until c raw now).1
    ∧ (random_mute_until c raw now).1 ≤ c.max_mute_time
    ∧ (random_mute_until c raw now).2 = now + (random_mute_until c raw now).1
    ∧ (c.min_mute_time = c.max_mute_time →
        (random_mute_until c raw now).1 = c.min_mute_time) := by
  have hd : (random_mute_until c raw now).1
      = c.min_mute_time + raw % (c.max_mute_time - c.min_mute_time + 1) := rfl
  have hu : (random_mute_until c raw now).2
      = now + (random_mute_until c raw now).1 := rfl
  have hmod : raw % (c.max_mute_time - c.min_mute_time + 1)
      ≤ c.max_mute_time - c.min_mute_time :=
    Nat.lt_succ_iff.mp (Nat.mod_lt _ (Nat.succ_pos _))
  refine ⟨?_, ?_, hu, ?_⟩
  · rw [hd]
    exact Nat.le_add_right _ _
  · rw [hd]
    omega
  · intro he
    rw [hd, he]
    simp [Nat.sub_self, Nat.mod_one]

/-- Closed instance of C9: with bounds `[60, 600]` the duration from raw
draw 1234 is within bounds and the expiry is `now + duration`; with bounds
`[60, 60]` the duration is exactly 60. -/
theorem mute_bounds_witness :
    cfg3.min_mute_time ≤ (random_mute_until cfg3 1234 1000).1
    ∧ (random_mute_until cfg3 1234 1000).1 ≤ cfg3.max_mute_time
    ∧ (random_mute_until cfg3 1234 1000).2
      = 1000 + (random_mute_until cfg3 1234 1000).1
    ∧ (random_mute_until cfg60 77 5).1 = cfg60.min_mute_time :=
  ⟨(mute_bounds cfg3 1234 1000 (by decide)).1,
    (mute_bounds cfg3 1234 1000 (by decide)).2.1,
    (mute_bounds cfg3 1234 1000 (by decide)).2.2.1,
    (mute_bounds cfg60 77 5 (by decide)).2.2.2 rfl⟩

/-! ### State safety -/

/-- C10: the cursor bound `position ≤ contents.length` holds for every
started revolver, is preserved by `fire` and (re-)established by `reload`;
the chamber read in `fire` happens only when a live chamber remains, which
forces `position < contents.length`; and under the bound the `peek`
subtraction is exact.  Hence no operation reads out of bounds. -/
theorem state_safety (r r' : Roulette) (s : ℚ) (sel : List Nat)
    (c : RouletteConfig) :
    (WF r → WF (fire r s).2)
    ∧ WF (reload r sel)
    ∧ (start c sel = .ok r' → WF r')
    ∧ ((peek r).1 ≠ 0 → r.position < r.contents.length)
    ∧ (WF r → r.position + (peek r).2 = r.contents.length) := by
  refine ⟨?_, ?_, ?_, peek_pos_lt r, ?_⟩
  · intro hwf
    by_cases h0 : (peek r).1 = 0
    · rw [fire_of_peek_zero r s h0]
      exact hwf
    · have hlt := peek_pos_lt r h0
      cases hjb : random_bool r.config.jam_probability s with
      | true =>
        simp only [fire, if_neg h0, hjb, if_true]
        exact hwf
      | false =>
        simp only [fire, if_neg h0, hjb, Bool.false_eq_true, if_false]
        exact Nat.succ_le_of_lt hlt
  · exact Nat.zero_le _
  · intro hok
    unfold start at hok
    split_ifs at hok
    injection hok with hr
    rw [← hr]
    exact Nat.zero_le _
  · intro hwf
    unfold WF at hwf
    simp only [peek]
    omega

/-- Closed instance of C10 at the reloaded 3-chamber revolver: firing
preserves the cursor bound, and the pending live chamber forces the cursor
strictly within bounds. -/
theorem state_safety_witness :
    WF (fire (reload rev3 [1]) 0).2
    ∧ (reload rev3 [1]).position < (reload rev3 [1]).contents.length :=
  ⟨(state_safety (reload rev3 [1]) rev3 0 [1] cfg3).1 (Nat.zero_le _),
    (state_safety (reload rev3 [1]) rev3 0 [1] cfg3).2.2.2.1 (by decide)⟩

end RR
